import Mathlib

/-!
# Verification of the questionnaire form route (`src/app/routes/form-json.tsx`)

Shallow embedding of the route's logic:

* `Val` models the JSON-ish values flowing through the page: strings (all
  submitted leaf values are strings) and JavaScript objects.  A JS array is an
  object whose fields are keyed by the decimal representations of its indices,
  in index order, with `isArr := true` (this is faithful to JS, where arrays
  are objects with numeric-string keys; it also makes lodash `set`'s
  behaviour of reusing an existing container regardless of the next path
  segment's kind come out right).
* `setPath` models lodash `set` (used in the action to build the error
  tree): it walks a key path, reuses an existing object, and creates a fresh
  container whose array-ness is decided by whether the next segment is
  numeric (lodash `isIndex`).  `qsSet` is the insertion step of `qs.parse`
  with `allowDots: true` and default options (used in the action to
  reconstruct the nested payload): it differs from lodash `set` in applying
  qs's default `arrayLimit` of 20 — an index above 20 is an object key, and
  merging it into an existing array converts that array to a plain object —
  and `qsParse` applies qs's default `parameterLimit` of 1000.
* `getF`/`jsGet` model lodash `get` / JS property access: a missing key or a
  non-object intermediate yields `none` (JS `undefined`), never an error.
* `formValidate` models `formSchema.safeParse` from the zod schemas
  `questionSchema`/`formSchema` in the source: it collects every issue with
  its path (title, then questions in index order, and per question name,
  type, options in schema order) and produces the typed value only when
  there are no issues.
-/

namespace FormJson

/-- A JSON-ish JavaScript value.  `obj isArr fields` is a JS object; when
`isArr` is true it is an array, whose fields are its index-keyed entries in
index order. -/
inductive Val where
  | str (s : String)
  | obj (isArr : Bool) (fields : List (String × Val))

/-- A segment of a zod issue path: an object key or an array index. -/
inductive Seg where
  | key (k : String)
  | idx (n : Nat)
deriving DecidableEq, Repr

/-- The string a segment addresses in a JS object (a JS array index is the
numeric-string property of the array object). -/
def segKey : Seg → String
  | .key k => k
  | .idx n => toString n

/-- First-match association lookup: JS property read on an object. -/
def getKey : List (String × Val) → String → Option Val
  | [], _ => none
  | (k', v) :: rest, k => if k = k' then some v else getKey rest k

/-- JS property write: replace the first binding of the key in place, else
append the new binding (JS insertion order). -/
def putKey : List (String × Val) → String → Val → List (String × Val)
  | [], k, v => [(k, v)]
  | (k', w) :: rest, k, v =>
    if k = k' then (k, v) :: rest else (k', w) :: putKey rest k v

/-- Whether a path segment names an array index (lodash `isIndex` / qs
numeric-segment detection, for the canonical decimal segments occurring in
this program: non-empty and all digits). -/
def isNumSeg (s : String) : Bool := !s.isEmpty && s.data.all Char.isDigit

/-- Core of both lodash `set` and a `qs.parse` (`allowDots: true`) insertion:
walk the key path through the fields of an object, reusing an existing
object at a key and otherwise creating a fresh container whose array-ness is
decided by the next segment, and store the string at the final key.  An
empty path leaves the fields unchanged (as lodash `set` does). -/
def setPath (fs : List (String × Val)) : List String → String → List (String × Val)
  | [], _ => fs
  | [k], m => putKey fs k (.str m)
  | k :: k2 :: rest, m =>
    let child := match getKey fs k with
      | some (.obj b cfs) => Val.obj b (setPath cfs (k2 :: rest) m)
      | _ => Val.obj (isNumSeg k2) (setPath [] (k2 :: rest) m)
    putKey fs k child

/-- The numeric value of a canonical decimal segment. -/
def decVal (s : String) : Nat :=
  s.data.foldl (fun n c => n * 10 + (c.toNat - 48)) 0

/-- Whether a path segment makes `qs.parse` create (or keep) an array:
qs's default `arrayLimit` is 20, so a canonical decimal index above 20 is
treated as a plain object key instead. -/
def isArrSeg (s : String) : Bool := isNumSeg s && decide (decVal s ≤ 20)

/-- One `qs.parse` (`allowDots: true`, default options) insertion: like
`setPath`, but with qs's default `arrayLimit` of 20.  A fresh container is
an array only when the next segment is an index at most 20, and a parameter
merged into an existing container keeps it an array only under the same
condition: qs converts an existing array into a plain object whenever an
out-of-range index (or non-index key) is merged into it, and a plain object
never becomes an array.  (As with `setPath`, this models qs for the
duplicate-free, canonical-decimal dot-notation keys this form submits.) -/
def qsSet (fs : List (String × Val)) : List String → String → List (String × Val)
  | [], _ => fs
  | [k], m => putKey fs k (.str m)
  | k :: k2 :: rest, m =>
    let child := match getKey fs k with
      | some (.obj b cfs) => Val.obj (b && isArrSeg k2) (qsSet cfs (k2 :: rest) m)
      | _ => Val.obj (isArrSeg k2) (qsSet [] (k2 :: rest) m)
    putKey fs k child

/-- Walk a key path through a value, JS-style: `none` is `undefined`. -/
def getF : Val → List String → Option Val
  | v, [] => some v
  | .obj _ fs, k :: rest =>
    match getKey fs k with
    | some w => getF w rest
    | none => none
  | .str _, _ :: _ => none

/-- lodash `set errors issue.path issue.message` on a value (the error-tree
accumulator is always an object; lodash returns a non-object unchanged). -/
def lset (v : Val) (p : List Seg) (m : String) : Val :=
  match v with
  | .obj b fs => .obj b (setPath fs (p.map segKey) m)
  | o => o

/-- lodash `get` of an issue-style path (string paths such as
`questions[0].name.message` are parsed by lodash into the same segments). -/
def jsGet (v : Val) (p : List Seg) : Option Val :=
  getF v (p.map segKey)

/-! ## The zod schemas (`questionSchema`, `formSchema`) -/

/-- The `type` enumeration of `questionSchema`. -/
inductive QType where
  | TEXT
  | NUMBER
  | RADIOLIST
deriving DecidableEq, Repr

/-- A validated option (`{ label: z.string().nonempty('Label required') }`). -/
structure OptionItem where
  label : String
deriving DecidableEq, Repr

/-- A validated question (`questionSchema`): `options` is optional. -/
structure Question where
  name : String
  qtype : QType
  options : Option (List OptionItem)
deriving DecidableEq, Repr

/-- A validated form (`formSchema`, the `FormSchemaType` of the source). -/
structure QForm where
  title : String
  questions : List Question
deriving DecidableEq, Repr

/-- Spec classification of a validation issue: `requiredField` for an empty
or missing required string (zod codes `too_small` / `invalid_type` with
message `Required`), `invalidEnum` for a `type` tag outside the enumeration,
`invalidType` for a structurally wrong value. -/
inductive IssueKind where
  | requiredField
  | invalidEnum
  | invalidType
deriving DecidableEq, Repr

/-- A zod issue: a path into the submitted value plus a message. -/
structure Issue where
  path : List Seg
  message : String
  kind : IssueKind
deriving DecidableEq, Repr

/-- The issue zod reports for a missing required key. -/
def requiredIssue (p : List Seg) : Issue := ⟨p, "Required", .requiredField⟩

/-- `z.string().nonempty msg` on the value found at a key (or `none` when
the key is absent). -/
def vNonemptyString (p : List Seg) (msg : String) :
    Option Val → List Issue × Option String
  | none => ([requiredIssue p], none)
  | some (.str s) =>
    if s = "" then ([⟨p, msg, .requiredField⟩], none) else ([], some s)
  | some (.obj _ _) => ([⟨p, "Expected string", .invalidType⟩], none)

/-- The enumeration check of `z.enum(['TEXT', 'NUMBER', 'RADIOLIST'])`. -/
def qtypeOfString (s : String) : Option QType :=
  if s = "TEXT" then some .TEXT
  else if s = "NUMBER" then some .NUMBER
  else if s = "RADIOLIST" then some .RADIOLIST
  else none

/-- `z.enum(['TEXT', 'NUMBER', 'RADIOLIST'])` on the value found at a key. -/
def vQType (p : List Seg) : Option Val → List Issue × Option QType
  | none => ([requiredIssue p], none)
  | some (.str s) =>
    match qtypeOfString s with
    | some t => ([], some t)
    | none => ([⟨p, "Invalid enum value", .invalidEnum⟩], none)
  | some (.obj _ _) => ([⟨p, "Expected string", .invalidType⟩], none)

/-- One element of the `options` array (`z.object({ label: ... })`). -/
def vOptionItem (p : List Seg) : Val → List Issue × Option OptionItem
  | .obj false fs =>
    match vNonemptyString (p ++ [.key "label"]) "Label required" (getKey fs "label") with
    | (is, some s) => (is, some ⟨s⟩)
    | (is, none) => (is, none)
  | _ => ([⟨p, "Expected object", .invalidType⟩], none)

/-- The elements of the `options` array, validated left to right with their
indices appended to the path. -/
def vOptionList (p : List Seg) : Nat → List Val → List Issue × Option (List OptionItem)
  | _, [] => ([], some [])
  | j, v :: rest =>
    let r1 := vOptionItem (p ++ [.idx j]) v
    let r2 := vOptionList p (j + 1) rest
    (r1.1 ++ r2.1,
      match r1.2, r2.2 with
      | some a, some l => some (a :: l)
      | _, _ => none)

/-- `z.array(z.object({ label: ... })).optional()` on the value found at the
`options` key: an absent key is accepted as `none`. -/
def vOptions (p : List Seg) : Option Val → List Issue × Option (Option (List OptionItem))
  | none => ([], some none)
  | some (.obj true fs) =>
    let r := vOptionList p 0 (fs.map Prod.snd)
    (r.1, r.2.map some)
  | some _ => ([⟨p, "Expected array", .invalidType⟩], none)

/-- `questionSchema` on one element of the `questions` array: the shape keys
are validated in schema order (name, type, options), collecting all issues. -/
def vQuestion (p : List Seg) : Val → List Issue × Option Question
  | .obj false fs =>
    let rn := vNonemptyString (p ++ [.key "name"]) "Name required" (getKey fs "name")
    let rt := vQType (p ++ [.key "type"]) (getKey fs "type")
    let ro := vOptions (p ++ [.key "options"]) (getKey fs "options")
    (rn.1 ++ rt.1 ++ ro.1,
      match rn.2, rt.2, ro.2 with
      | some n, some t, some o => some ⟨n, t, o⟩
      | _, _, _ => none)
  | _ => ([⟨p, "Expected object", .invalidType⟩], none)

/-- The elements of the `questions` array, validated left to right. -/
def vQuestionList : Nat → List Val → List Issue × Option (List Question)
  | _, [] => ([], some [])
  | i, v :: rest =>
    let r1 := vQuestion [.key "questions", .idx i] v
    let r2 := vQuestionList (i + 1) rest
    (r1.1 ++ r2.1,
      match r1.2, r2.2 with
      | some q, some l => some (q :: l)
      | _, _ => none)

/-- `z.array(questionSchema)` on the value found at the `questions` key. -/
def vQuestions : Option Val → List Issue × Option (List Question)
  | none => ([requiredIssue [.key "questions"]], none)
  | some (.obj true fs) => vQuestionList 0 (fs.map Prod.snd)
  | some _ => ([⟨[.key "questions"], "Expected array", .invalidType⟩], none)

/-- `formSchema.safeParse`: all issues of the submitted value, collected in
a single pass without short-circuiting, together with the typed value when
validation succeeded. -/
def formValidate : Val → List Issue × Option QForm
  | .obj false fs =>
    let rt := vNonemptyString [.key "title"] "Title required" (getKey fs "title")
    let rq := vQuestions (getKey fs "questions")
    (rt.1 ++ rq.1,
      match rt.2, rq.2 with
      | some t, some qs => some ⟨t, qs⟩
      | _, _ => none)
  | _ => ([⟨[], "Expected object", .invalidType⟩], none)

/-! ## The action (`action` in the source) -/

/-- The fields of the error-tree accumulator after folding lodash `set`
over the issues. -/
def buildFields (issues : List Issue) : List (String × Val) :=
  issues.foldl (fun fs i => setPath fs (i.path.map segKey) i.message) []

/-- The error tree returned by the action:
`issues.reduce((errors, issue) => { set(errors, issue.path, issue.message); return errors }, {})`. -/
def buildTree (issues : List Issue) : Val :=
  .obj false (buildFields issues)

/-- What the action returns: either `redirect('/templates/1')` or
`json({ errors })`. -/
inductive ActionResult where
  | redirectTo (loc : String)
  | jsonErrors (errors : Val)

/-- Left-to-right insertion of the submitted (key, value) pairs into the
growing object, as `qs.parse` iterates the parameters. -/
def qsFold (fs : List (String × Val)) : List (List String × String) → List (String × Val)
  | [] => fs
  | kv :: rest => qsFold (qsSet fs kv.1 kv.2) rest

/-- `qs.parse(formText, { allowDots: true })` with qs's default options:
only the first 1000 parameters are parsed (`parameterLimit`), and array
creation respects `arrayLimit` 20 (see `qsSet`).  The url-encoded body is
abstracted as its (key, value) pairs with each key given by its
dot-separated segments (exactly what qs's `allowDots` splitting produces for
the dot-notation field names this form submits, which are duplicate-free,
contain no bracket syntax, and stay within qs's default depth of 5). -/
def qsParse (pairs : List (List String × String)) : Val :=
  .obj false (qsFold [] (pairs.take 1000))

/-- The action: reconstruct the payload, validate it, and either redirect to
the fixed success location or return the error tree as JSON. -/
def action (body : List (List String × String)) : ActionResult :=
  let parsedForm := qsParse body
  let r := formValidate parsedForm
  if r.1.isEmpty then .redirectTo "/templates/1" else .jsonErrors (buildTree r.1)

/-! ## The component (`FormJson` in the source) -/

/-- JS truthiness of the values occurring here (an object — also an empty
one — is truthy; a string is truthy iff non-empty). -/
def truthy : Val → Bool
  | .str s => s ≠ ""
  | .obj _ _ => true

/-- Truthiness of a possibly-`undefined` value. -/
def truthyO : Option Val → Bool
  | none => false
  | some v => truthy v

/-- What React renders for a child expression: `undefined` renders nothing,
a string renders itself. -/
def textOf : Option Val → String
  | some (.str s) => s
  | some (.obj _ _) => "[object Object]"
  | none => ""

/-- lodash `isEmpty` on the values occurring here. -/
def isEmptyVal : Val → Bool
  | .obj _ fs => fs.isEmpty
  | .str s => s.isEmpty

/-- Line 112–113 of the source:
`actionData?.errors && isEmpty(errors) ? actionData.errors : errors`.
`serverErrors` is `actionData?.errors` (`none` when there is no action
data) and `clientErrors` the live react-hook-form error object. -/
def displayedErrors (serverErrors : Option Val) (clientErrors : Val) : Val :=
  match serverErrors with
  | some s => if isEmptyVal clientErrors then s else clientErrors
  | none => clientErrors

/-- The data the component receives back from the action (`useActionData`):
the error tree, and the optional `data` field read on line 117 (which the
action never sets). -/
structure ActionData where
  errors : Val
  data : Option Val

/-- The action data produced by an action result. -/
def actionDataOf : ActionResult → Option ActionData
  | .redirectTo _ => none
  | .jsonErrors t => some ⟨t, none⟩

/-- Line 117 of the source: `reset(actionData?.data || template)` (a JS
object is truthy, so `||` falls through exactly when `data` is absent). -/
def resetTarget (actionData : Option ActionData) (template : Val) : Val :=
  match actionData with
  | some a =>
    match a.data with
    | some d => d
    | none => template
  | none => template

/-- Lines 128–130 of the source: the error shown beside the title field;
`some s` means the error `div` renders with text `s`, `none` that it does
not render. -/
def renderedTitleError (tree : Val) : Option String :=
  if truthyO (jsGet tree [.key "title"])
  then some (textOf (jsGet tree [.key "title", .key "message"]))
  else none

/-- Lines 193–197 of the source: the error shown beside question `i`'s name
field, via `get(errors, questions[i].name.message)`. -/
def renderedQuestionNameError (tree : Val) (i : Nat) : Option String :=
  let m := jsGet tree [.key "questions", .idx i, .key "name", .key "message"]
  if truthyO m then some (textOf m) else none

/-- The blank question appended by the Add Question button (lines 150–154):
`{ name: '', type: 'TEXT', options: undefined }`. -/
def blankQuestion : Question := ⟨"", .TEXT, none⟩

/-- `useFieldArray`'s `append` for questions: each field carries the stable
id `useFieldArray` assigned at insertion; the new item goes at the end with
the next fresh id. -/
def appendQuestion (fields : List (Nat × Question)) (nextId : Nat) :
    List (Nat × Question) :=
  fields ++ [(nextId, blankQuestion)]

/-! ## The loader (`loader` in the source) -/

/-- The template object returned by the loader (lines 50–65): three
questions and no `title` key. -/
def loaderTemplate : Val :=
  .obj false
    [("questions", .obj true
      [("0", .obj false [("name", .str "What is your name?"), ("type", .str "TEXT")]),
       ("1", .obj false [("name", .str "How old are you?"), ("type", .str "NUMBER")]),
       ("2", .obj false [("name", .str "What is your favorite framework?"),
                         ("type", .str "RADIOLIST")])])]

/-- The loader's full return value `{ template }`. -/
def loaderData : Val := .obj false [("template", loaderTemplate)]

/-! ## The flattened submission encoding

The form's field names (`title`, `questions.${i}.name`, `questions.${i}.type`,
`questions.${i}.options.${j}.label`; the option fields are in the DOM only
when the question's live type is RADIOLIST) determine how a form value is
serialized into the flat key-value payload the action receives. -/

/-- The string value a `type` select submits. -/
def qtypeStr : QType → String
  | .TEXT => "TEXT"
  | .NUMBER => "NUMBER"
  | .RADIOLIST => "RADIOLIST"

/-- The option-label fields of question `i`, starting at option index `j`. -/
def flattenOptions (i : Nat) : Nat → List OptionItem → List (List String × String)
  | _, [] => []
  | j, o :: rest =>
    (["questions", toString i, "options", toString j, "label"], o.label) ::
      flattenOptions i (j + 1) rest

/-- The fields of question `i`: name, type, and — only when the question's
type is RADIOLIST, since only then is the option editor in the DOM — its
option labels. -/
def flattenQuestion (i : Nat) (q : Question) : List (List String × String) :=
  (["questions", toString i, "name"], q.name) ::
  (["questions", toString i, "type"], qtypeStr q.qtype) ::
  (if q.qtype = .RADIOLIST then flattenOptions i 0 (q.options.getD []) else [])

/-- The fields of all questions from index `i` on. -/
def flattenQuestions : Nat → List Question → List (List String × String)
  | _, [] => []
  | i, q :: rest => flattenQuestion i q ++ flattenQuestions (i + 1) rest

/-- The full submitted payload of a form value, in DOM order. -/
def flatten (f : QForm) : List (List String × String) :=
  (["title"], f.title) :: flattenQuestions 0 f.questions

/-- Well-formedness of a question per the data model: non-empty name,
options absent unless the type is RADIOLIST, and all option labels
non-empty. -/
def wfQuestion (q : Question) : Bool :=
  (q.name != "") &&
  (q.qtype == .RADIOLIST || q.options.isNone) &&
  (match q.options with
   | some l => l.all fun o => o.label != ""
   | none => true)

/-- Well-formedness of a form value per the data model: non-empty title and
well-formed questions. -/
def wellFormed (f : QForm) : Bool :=
  (f.title != "") && f.questions.all wfQuestion

/-- No question carries a present-but-empty options list (such a list is
indistinguishable from an absent one in the flat encoding). -/
def noEmptyOptions (f : QForm) : Bool :=
  f.questions.all fun q => q.options != some []

/-- Every array index this form submits stays within qs's default
`arrayLimit` of 20: at most 21 questions, and at most 21 options per
question.  (Under these bounds the payload also stays far below qs's
default `parameterLimit` of 1000.) -/
def withinArrayLimit (f : QForm) : Bool :=
  decide (f.questions.length ≤ 21) &&
    f.questions.all fun q => decide ((q.options.getD []).length ≤ 21)

/-! ## Canonical parsed shapes (proof infrastructure)

`encodeForm f` is the value `qsParse (flatten f)` provably produces; the
round-trip proof goes through it. -/

/-- The parsed shape of the option array entries from index `j` on. -/
def encOptionList : Nat → List OptionItem → List (String × Val)
  | _, [] => []
  | j, o :: rest =>
    (toString j, .obj false [("label", .str o.label)]) :: encOptionList (j + 1) rest

/-- The parsed `options` binding of a question: present exactly when some
option-label field was submitted. -/
def encOptions (q : Question) : List (String × Val) :=
  if q.qtype = .RADIOLIST then
    match q.options with
    | some (o :: os) => [("options", .obj true (encOptionList 0 (o :: os)))]
    | _ => []
  else []

/-- The parsed shape of one question. -/
def encQuestion (q : Question) : Val :=
  .obj false (("name", .str q.name) :: ("type", .str (qtypeStr q.qtype)) :: encOptions q)

/-- The parsed `questions` array entries from index `i` on. -/
def encQList : Nat → List Question → List (String × Val)
  | _, [] => []
  | i, q :: rest => (toString i, encQuestion q) :: encQList (i + 1) rest

/-- The parsed shape of a whole submitted form (with at least one
question). -/
def encodeForm (f : QForm) : Val :=
  .obj false [("title", .str f.title), ("questions", .obj true (encQList 0 f.questions))]

/-- The decimal digit characters of a natural number (proof infrastructure:
the list `Nat.repr` renders, defined by structural division). -/
def digitsRec (n : Nat) : List Char :=
  if _h : n < 10 then [Nat.digitChar n]
  else
    have : n / 10 < n := Nat.div_lt_self (by omega) (by omega)
    digitsRec (n / 10) ++ [Nat.digitChar (n % 10)]
termination_by n

/-! ## Path divergence (for the error-mapper theorem) -/

/-- The key path of an issue, as both lodash `set` and lodash `get` address
it. -/
def keyPath (i : Issue) : List String := i.path.map segKey

/-- Two key paths diverge when they differ at a position that exists in
both: then they address disjoint locations.  (Equal paths do not diverge —
they collide, and the later write overwrites; nor does a path diverge from
an extension of itself — there a write could clobber the other's subtree.) -/
def diverge : List String → List String → Bool
  | [], _ => false
  | _, [] => false
  | a :: p, b :: q => if a = b then diverge p q else true

/-- The message of the last issue in the list whose key path is `p`. -/
def lastMsgAt (p : List String) (issues : List Issue) : Option String :=
  ((issues.filter fun b => keyPath b = p).map Issue.message).getLast?

/-- A submitted question object whose name is empty or absent but whose
other fields validate: a `type` string from the enumeration and no
`options` entry. -/
def badNameQuestion (v : Val) : Prop :=
  ∃ fs, v = .obj false fs ∧
    (getKey fs "name" = none ∨ getKey fs "name" = some (.str "")) ∧
    (∃ t, getKey fs "type" = some (.str t) ∧ (qtypeOfString t).isSome = true) ∧
    getKey fs "options" = none

/-- The parsed payload of the raw submission
`title=&questions.0.name=&questions.0.type=TEXT` (a form submitted with an
empty title and one question with an empty name). -/
def rejectedPayload : Val :=
  .obj false
    [("title", .str ""),
     ("questions", .obj true [("0", .obj false [("name", .str ""), ("type", .str "TEXT")])])]

end FormJson

namespace FormJson

/-! ## Helper lemmas: where validation issues point -/

theorem vNonemptyString_paths (p : List Seg) (msg : String) (ov : Option Val) :
    ∀ i ∈ (vNonemptyString p msg ov).1, i.path = p := by
  rcases ov with _ | v
  · simp [vNonemptyString, requiredIssue]
  · rcases v with s | ⟨b, fs⟩
    · by_cases h : s = "" <;> simp [vNonemptyString, h]
    · simp [vNonemptyString]

theorem vQType_paths (p : List Seg) (ov : Option Val) :
    ∀ i ∈ (vQType p ov).1, i.path = p := by
  rcases ov with _ | v
  · simp [vQType, requiredIssue]
  · rcases v with s | ⟨b, fs⟩
    · rcases h : qtypeOfString s with _ | t <;> simp [vQType, h]
    · simp [vQType]

theorem vOptionItem_paths (p : List Seg) (v : Val) :
    ∀ i ∈ (vOptionItem p v).1, ∃ suf, i.path = p ++ suf := by
  rcases v with s | ⟨b, fs⟩
  · simp [vOptionItem]
  · rcases b with _ | _
    · rcases h : vNonemptyString (p ++ [.key "label"]) "Label required" (getKey fs "label")
        with ⟨is, os⟩
      have hp := vNonemptyString_paths (p ++ [.key "label"]) "Label required" (getKey fs "label")
      rw [h] at hp
      rcases os with _ | s <;>
        · intro i hi
          simp only [vOptionItem, h] at hi
          exact ⟨[.key "label"], hp i hi⟩
    · simp [vOptionItem]

theorem vOptionList_paths (p : List Seg) (j : Nat) (vs : List Val) :
    ∀ i ∈ (vOptionList p j vs).1, ∃ suf, i.path = p ++ suf := by
  induction vs generalizing j with
  | nil => simp [vOptionList]
  | cons v rest ih =>
    intro i hi
    simp only [vOptionList, List.mem_append] at hi
    rcases hi with hi | hi
    · obtain ⟨suf, hs⟩ := vOptionItem_paths (p ++ [.idx j]) v i hi
      exact ⟨[.idx j] ++ suf, by simp [hs]⟩
    · exact ih (j + 1) i hi

theorem vOptions_paths (p : List Seg) (ov : Option Val) :
    ∀ i ∈ (vOptions p ov).1, ∃ suf, i.path = p ++ suf := by
  rcases ov with _ | v
  · simp [vOptions]
  · rcases v with s | ⟨b, fs⟩
    · simp [vOptions]
    · rcases b with _ | _
      · simp [vOptions]
      · intro i hi
        simp only [vOptions] at hi
        exact vOptionList_paths p 0 (fs.map Prod.snd) i hi

theorem vQuestion_paths (p : List Seg) (v : Val) :
    ∀ i ∈ (vQuestion p v).1, ∃ suf, i.path = p ++ suf := by
  rcases v with s | ⟨b, fs⟩
  · simp [vQuestion]
  · rcases b with _ | _
    · intro i hi
      simp only [vQuestion, List.mem_append] at hi
      rcases hi with (hi | hi) | hi
      · exact ⟨[.key "name"], vNonemptyString_paths _ _ _ i hi⟩
      · exact ⟨[.key "type"], vQType_paths _ _ i hi⟩
      · obtain ⟨suf, hs⟩ := vOptions_paths (p ++ [.key "options"]) (getKey fs "options") i hi
        exact ⟨[.key "options"] ++ suf, by simp [hs]⟩
    · simp [vQuestion]

theorem vQuestionList_paths (k : Nat) (vs : List Val) :
    ∀ i ∈ (vQuestionList k vs).1, ∃ suf, i.path = .key "questions" :: suf := by
  induction vs generalizing k with
  | nil => simp [vQuestionList]
  | cons v rest ih =>
    intro i hi
    simp only [vQuestionList, List.mem_append] at hi
    rcases hi with hi | hi
    · obtain ⟨suf, hs⟩ := vQuestion_paths [.key "questions", .idx k] v i hi
      exact ⟨.idx k :: suf, by simpa using hs⟩
    · exact ih (k + 1) i hi

theorem vQuestions_paths (ov : Option Val) :
    ∀ i ∈ (vQuestions ov).1, ∃ suf, i.path = .key "questions" :: suf := by
  rcases ov with _ | v
  · simp [vQuestions, requiredIssue]
  · rcases v with s | ⟨b, fs⟩
    · simp [vQuestions]
    · rcases b with _ | _
      · simp [vQuestions]
      · exact vQuestionList_paths 0 (fs.map Prod.snd)

/-! ## Helper lemmas: JS property reads and writes -/

theorem getKey_putKey_self (fs : List (String × Val)) (k : String) (v : Val) :
    getKey (putKey fs k v) k = some v := by
  induction fs with
  | nil => simp [putKey, getKey]
  | cons kv rest ih =>
    obtain ⟨a, w⟩ := kv
    by_cases h : k = a
    · simp [putKey, getKey, h]
    · simp [putKey, getKey, h, ih]

theorem getKey_putKey_ne (fs : List (String × Val)) (k k' : String) (v : Val)
    (h : k' ≠ k) : getKey (putKey fs k v) k' = getKey fs k' := by
  induction fs with
  | nil => simp [putKey, getKey, h]
  | cons kv rest ih =>
    obtain ⟨a, w⟩ := kv
    by_cases hk : k = a
    · subst hk; simp [putKey, getKey, h]
    · by_cases hk' : k' = a
      · simp [putKey, getKey, hk, hk']
      · simp [putKey, getKey, hk, hk', ih]

theorem getKey_append_of_none (l1 l2 : List (String × Val)) (k : String)
    (h : getKey l1 k = none) : getKey (l1 ++ l2) k = getKey l2 k := by
  induction l1 with
  | nil => rfl
  | cons kv rest ih =>
    obtain ⟨a, w⟩ := kv
    by_cases hk : k = a
    · simp [getKey, hk] at h
    · simp only [getKey, if_neg hk] at h
      simp only [List.cons_append, getKey, if_neg hk]
      exact ih h

theorem getKey_singleton_ne (a k : String) (v : Val) (h : k ≠ a) :
    getKey [(a, v)] k = none := by simp [getKey, h]

theorem getKey_singleton_self (a : String) (v : Val) : getKey [(a, v)] a = some v := by
  simp [getKey]

theorem putKey_of_none (l : List (String × Val)) (k : String) (v : Val)
    (h : getKey l k = none) : putKey l k v = l ++ [(k, v)] := by
  induction l with
  | nil => rfl
  | cons kv rest ih =>
    obtain ⟨a, w⟩ := kv
    by_cases hk : k = a
    · simp [getKey, hk] at h
    · simp only [getKey, if_neg hk] at h
      simp [putKey, if_neg hk, ih h]

theorem putKey_append_of_none (l1 l2 : List (String × Val)) (k : String) (v : Val)
    (h : getKey l1 k = none) : putKey (l1 ++ l2) k v = l1 ++ putKey l2 k v := by
  induction l1 with
  | nil => rfl
  | cons kv rest ih =>
    obtain ⟨a, w⟩ := kv
    by_cases hk : k = a
    · simp [getKey, hk] at h
    · simp only [getKey, if_neg hk] at h
      simp [putKey, if_neg hk, ih h]

/-! ## Helper lemmas: `setPath` stores, and leaves diverging paths alone -/

theorem getF_obj_cons (b : Bool) (fs : List (String × Val)) (k : String)
    (rest : List String) :
    getF (.obj b fs) (k :: rest) =
      match getKey fs k with
      | some w => getF w rest
      | none => none := rfl

theorem getF_obj_putKey_cons (b : Bool) (fs : List (String × Val)) (k : String)
    (v : Val) (rest : List String) :
    getF (.obj b (putKey fs k v)) (k :: rest) = getF v rest := by
  rw [getF_obj_cons, getKey_putKey_self]

theorem getF_obj_putKey_cons_ne (b : Bool) (fs : List (String × Val)) (k k' : String)
    (v : Val) (rest : List String) (h : k' ≠ k) :
    getF (.obj b (putKey fs k v)) (k' :: rest) = getF (.obj b fs) (k' :: rest) := by
  rw [getF_obj_cons, getKey_putKey_ne _ _ _ _ h, getF_obj_cons]

theorem setPath_cons₂ (fs : List (String × Val)) (k k2 : String) (rest : List String)
    (m : String) :
    setPath fs (k :: k2 :: rest) m =
      putKey fs k (match getKey fs k with
        | some (.obj cb cfs) => Val.obj cb (setPath cfs (k2 :: rest) m)
        | _ => Val.obj (isNumSeg k2) (setPath [] (k2 :: rest) m)) := by
  rcases hg : getKey fs k with _ | w
  · simp [setPath, hg]
  · rcases w with s | ⟨wb, wfs⟩ <;> simp [setPath, hg]

theorem getF_setPath_self : ∀ (ks : List String), ks ≠ [] →
    ∀ (fs : List (String × Val)) (b : Bool) (m : String),
      getF (.obj b (setPath fs ks m)) ks = some (.str m) := by
  intro ks
  induction ks with
  | nil => intro h; cases h rfl
  | cons k rest ih =>
    intro _ fs b m
    rcases rest with _ | ⟨k2, rest'⟩
    · show getF (.obj b (putKey fs k (.str m))) [k] = some (.str m)
      rw [getF_obj_putKey_cons]
      rfl
    · rw [setPath_cons₂]
      rcases hg : getKey fs k with _ | w
      · rw [getF_obj_putKey_cons]
        exact ih (by simp) [] (isNumSeg k2) m
      · rcases w with s | ⟨wb, wfs⟩
        · rw [getF_obj_putKey_cons]
          exact ih (by simp) [] (isNumSeg k2) m
        · rw [getF_obj_putKey_cons]
          exact ih (by simp) wfs wb m

theorem diverge_nonempty_left {t t' : List String} (h : diverge t t' = true) : t ≠ [] := by
  intro h'; subst h'; simp [diverge] at h

theorem diverge_nonempty_right {t t' : List String} (h : diverge t t' = true) : t' ≠ [] := by
  intro h'; subst h'; rcases t with _ | ⟨a, r⟩ <;> simp [diverge] at h

theorem getF_setPath_scratch_diverge : ∀ (t t' : List String), diverge t t' = true →
    ∀ (b : Bool) (m : String), getF (.obj b (setPath [] t m)) t' = none := by
  intro t
  induction t with
  | nil => intro t' h; simp [diverge] at h
  | cons u r ih =>
    intro t' h b m
    rcases t' with _ | ⟨u', r'⟩
    · exact absurd rfl (diverge_nonempty_right h)
    · by_cases hu : u = u'
      · subst hu
        have hr : diverge r r' = true := by simpa [diverge] using h
        have hrne := diverge_nonempty_left hr
        rcases r with _ | ⟨r1, rs⟩
        · cases hrne rfl
        · rw [setPath_cons₂]
          show getF (.obj b (putKey [] u _)) (u :: r') = none
          rw [getF_obj_putKey_cons]
          exact ih r' hr (isNumSeg r1) m
      · have hne : u' ≠ u := Ne.symm hu
        rcases r with _ | ⟨r1, rs⟩
        · show getF (.obj b (putKey [] u (.str m))) (u' :: r') = none
          rw [getF_obj_putKey_cons_ne _ _ _ _ _ _ hne]
          rfl
        · rw [setPath_cons₂]
          rw [getF_obj_putKey_cons_ne _ _ _ _ _ _ hne]
          rfl

theorem getF_setPath_diverge : ∀ (ks ks' : List String), diverge ks ks' = true →
    ∀ (fs : List (String × Val)) (b : Bool) (m : String),
      getF (.obj b (setPath fs ks m)) ks' = getF (.obj b fs) ks' := by
  intro ks
  induction ks with
  | nil => intro ks' h; simp [diverge] at h
  | cons k t ih =>
    intro ks' h fs b m
    rcases ks' with _ | ⟨k', t'⟩
    · exact absurd rfl (diverge_nonempty_right h)
    · by_cases hk : k = k'
      · subst hk
        have ht : diverge t t' = true := by simpa [diverge] using h
        have htne := diverge_nonempty_left ht
        rcases t with _ | ⟨k2, r⟩
        · cases htne rfl
        · rw [setPath_cons₂]
          rcases hg : getKey fs k with _ | w
          · rw [getF_obj_putKey_cons, getF_setPath_scratch_diverge (k2 :: r) t' ht,
              getF_obj_cons, hg]
          · rcases w with s | ⟨wb, wfs⟩
            · rw [getF_obj_putKey_cons, getF_setPath_scratch_diverge (k2 :: r) t' ht,
                getF_obj_cons, hg]
              rcases t' with _ | ⟨x, xs⟩
              · exact absurd rfl (diverge_nonempty_right ht)
              · rfl
            · rw [getF_obj_putKey_cons, ih t' ht wfs wb m, getF_obj_cons, hg]
      · have hne : k' ≠ k := Ne.symm hk
        rcases t with _ | ⟨k2, r⟩
        · show getF (.obj b (putKey fs k (.str m))) (k' :: t') = _
          rw [getF_obj_putKey_cons_ne _ _ _ _ _ _ hne]
        · rw [setPath_cons₂, getF_obj_putKey_cons_ne _ _ _ _ _ _ hne]

/-! ## Helper lemmas: decimal rendering of array indices -/

theorem digitChar_isDigit (a : Nat) (h : a < 10) : (Nat.digitChar a).isDigit = true := by
  interval_cases a <;> decide

theorem digitChar_inj_lt (a b : Nat) (ha : a < 10) (hb : b < 10)
    (h : Nat.digitChar a = Nat.digitChar b) : a = b := by
  interval_cases a <;> interval_cases b <;> revert h <;> decide

theorem digitsRec_ne_nil (n : Nat) : digitsRec n ≠ [] := by
  rw [digitsRec]
  split <;> simp

theorem digitsRec_digits (n : Nat) : ∀ c ∈ digitsRec n, c.isDigit = true := by
  induction n using Nat.strong_induction_on with
  | _ n ih =>
    rw [digitsRec]
    split
    · next h =>
      intro c hc
      simp only [List.mem_singleton] at hc
      subst hc
      exact digitChar_isDigit n h
    · next h =>
      intro c hc
      have hdiv : n / 10 < n := Nat.div_lt_self (by omega) (by omega)
      simp only [List.mem_append, List.mem_singleton] at hc
      rcases hc with hc | hc
      · exact ih (n / 10) hdiv c hc
      · subst hc
        exact digitChar_isDigit (n % 10) (Nat.mod_lt n (by omega))

theorem digitsRec_small {n : Nat} (h : n < 10) : digitsRec n = [Nat.digitChar n] := by
  rw [digitsRec, dif_pos h]

theorem digitsRec_big {n : Nat} (h : ¬ n < 10) :
    digitsRec n = digitsRec (n / 10) ++ [Nat.digitChar (n % 10)] := by
  rw [digitsRec, dif_neg h]

theorem digitsRec_inj : ∀ m n : Nat, digitsRec m = digitsRec n → m = n := by
  intro m
  induction m using Nat.strong_induction_on with
  | _ m ih =>
    intro n h
    by_cases hm : m < 10 <;> by_cases hn : n < 10
    · rw [digitsRec_small hm, digitsRec_small hn] at h
      simp only [List.cons.injEq, and_true] at h
      exact digitChar_inj_lt m n hm hn h
    · rw [digitsRec_small hm, digitsRec_big hn] at h
      have hlen := congrArg List.length h
      have hpos : 0 < (digitsRec (n / 10)).length :=
        List.length_pos.mpr (digitsRec_ne_nil (n / 10))
      simp only [List.length_singleton, List.length_append] at hlen
      omega
    · rw [digitsRec_big hm, digitsRec_small hn] at h
      have hlen := congrArg List.length h
      have hpos : 0 < (digitsRec (m / 10)).length :=
        List.length_pos.mpr (digitsRec_ne_nil (m / 10))
      simp only [List.length_singleton, List.length_append] at hlen
      omega
    · rw [digitsRec_big hm, digitsRec_big hn] at h
      have hrev := congrArg List.reverse h
      simp only [List.reverse_append, List.reverse_singleton, List.singleton_append,
        List.cons.injEq, List.reverse_inj] at hrev
      have hdivlt : m / 10 < m := Nat.div_lt_self (by omega) (by omega)
      have h1 : m / 10 = n / 10 := ih (m / 10) hdivlt (n / 10) hrev.2
      have h2 : m % 10 = n % 10 :=
        digitChar_inj_lt _ _ (Nat.mod_lt m (by omega)) (Nat.mod_lt n (by omega)) hrev.1
      have hm10 := Nat.div_add_mod m 10
      have hn10 := Nat.div_add_mod n 10
      omega

theorem toDigitsCore_eq_digitsRec :
    ∀ (fuel n : Nat) (acc : List Char), n < fuel →
      Nat.toDigitsCore 10 fuel n acc = digitsRec n ++ acc := by
  intro fuel
  induction fuel with
  | zero => intro n acc h; omega
  | succ f ih =>
    intro n acc h
    show (if n / 10 = 0 then Nat.digitChar (n % 10) :: acc
        else Nat.toDigitsCore 10 f (n / 10) (Nat.digitChar (n % 10) :: acc))
      = digitsRec n ++ acc
    by_cases h10 : n / 10 = 0
    · have hlt : n < 10 := by omega
      rw [if_pos h10, digitsRec_small hlt, Nat.mod_eq_of_lt hlt]
      rfl
    · have hlt : ¬ n < 10 := fun hc => h10 (Nat.div_eq_of_lt hc)
      have hf : n / 10 < f := by
        have h1 : n / 10 < n := Nat.div_lt_self (by omega) (by omega)
        omega
      rw [if_neg h10, ih (n / 10) (Nat.digitChar (n % 10) :: acc) hf,
        digitsRec_big hlt, List.append_assoc]
      rfl

theorem repr_eq_digitsRec (n : Nat) : Nat.repr n = (digitsRec n).asString := by
  show (Nat.toDigitsCore 10 (n + 1) n []).asString = _
  rw [toDigitsCore_eq_digitsRec (n + 1) n [] (by omega), List.append_nil]

theorem toString_nat_data (n : Nat) : (toString n : String).data = digitsRec n := by
  show (Nat.repr n).data = _
  rw [repr_eq_digitsRec]
  rfl

theorem toString_nat_inj (m n : Nat) (h : (toString m : String) = toString n) : m = n := by
  have hd : digitsRec m = digitsRec n := by
    rw [← toString_nat_data, ← toString_nat_data, h]
  exact digitsRec_inj m n hd

theorem toString_nat_ne (m n : Nat) (h : m ≠ n) :
    (toString m : String) ≠ toString n :=
  fun hc => h (toString_nat_inj m n hc)

theorem toString_nat_isEmpty (n : Nat) : (toString n : String).isEmpty = false := by
  rw [Bool.eq_false_iff]
  intro hemp
  have h1 : (toString n : String) = "" := (String.isEmpty_iff _).mp hemp
  have h2 := congrArg String.data h1
  rw [toString_nat_data] at h2
  exact digitsRec_ne_nil n (by simpa using h2)

theorem isNumSeg_toString (n : Nat) : isNumSeg (toString n) = true := by
  unfold isNumSeg
  rw [toString_nat_isEmpty, toString_nat_data]
  simp only [Bool.not_false, Bool.true_and, List.all_eq_true]
  intro c hc
  exact digitsRec_digits n c hc

theorem digitChar_toNat_sub (d : Nat) (h : d < 10) : (Nat.digitChar d).toNat - 48 = d := by
  interval_cases d <;> decide

theorem foldl_digitsRec (n : Nat) :
    (digitsRec n).foldl (fun a c => a * 10 + (c.toNat - 48)) 0 = n := by
  induction n using Nat.strong_induction_on with
  | _ n ih =>
    by_cases hn : n < 10
    · rw [digitsRec_small hn]
      show 0 * 10 + ((Nat.digitChar n).toNat - 48) = n
      rw [digitChar_toNat_sub n hn]
      omega
    · rw [digitsRec_big hn, List.foldl_append]
      have hdiv : n / 10 < n := Nat.div_lt_self (by omega) (by omega)
      rw [ih (n / 10) hdiv]
      show n / 10 * 10 + ((Nat.digitChar (n % 10)).toNat - 48) = n
      rw [digitChar_toNat_sub (n % 10) (Nat.mod_lt n (by omega))]
      have := Nat.div_add_mod n 10
      omega

theorem decVal_toString (n : Nat) : decVal (toString n) = n := by
  unfold decVal
  rw [toString_nat_data]
  exact foldl_digitsRec n

theorem isArrSeg_toString_le (n : Nat) (h : n ≤ 20) : isArrSeg (toString n) = true := by
  unfold isArrSeg
  rw [isNumSeg_toString, decVal_toString]
  simp [h]

/-! ## Helper lemmas: questions with an invalid name and valid other fields -/

theorem vQuestion_badName (p : List Seg) (v : Val) (h : badNameQuestion v) :
    ∃ m, (vQuestion p v).1 = [⟨p ++ [.key "name"], m, .requiredField⟩] := by
  obtain ⟨fs, rfl, hname, ⟨t, ht, hts⟩, hopt⟩ := h
  obtain ⟨qt, hqt⟩ := Option.isSome_iff_exists.mp hts
  rcases hname with hname | hname
  · exact ⟨"Required", by simp [vQuestion, vNonemptyString, vQType, vOptions,
      hname, ht, hqt, hopt, requiredIssue]⟩
  · exact ⟨"Name required", by simp [vQuestion, vNonemptyString, vQType, vOptions,
      hname, ht, hqt, hopt]⟩

theorem vQuestionList_badNames (vs : List Val) (h : ∀ v ∈ vs, badNameQuestion v) :
    ∀ k, (vQuestionList k vs).1.length = vs.length ∧
      ∀ j, j < vs.length → ∃ m, (vQuestionList k vs).1.get? j =
        some ⟨[.key "questions", .idx (k + j), .key "name"], m, .requiredField⟩ := by
  induction vs with
  | nil => simp [vQuestionList]
  | cons v rest ih =>
    intro k
    obtain ⟨m, hm⟩ := vQuestion_badName [.key "questions", .idx k] v (h v (by simp))
    have hrest := ih (fun w hw => h w (by simp [hw])) (k + 1)
    constructor
    · simp [vQuestionList, hm, hrest.1]
    · intro j hj
      rcases j with _ | j
      · exact ⟨m, by simp [vQuestionList, hm]⟩
      · obtain ⟨m', hm'⟩ := hrest.2 j (by simpa using hj)
        refine ⟨m', ?_⟩
        have : k + 1 + j = k + (j + 1) := by omega
        rw [this] at hm'
        simp only [vQuestionList, hm, List.singleton_append, List.get?_cons_succ]
        exact hm'

/-! ## Helper lemmas: the paths of real validation outputs pairwise diverge -/

theorem diverge_symm (p q : List String) : diverge p q = diverge q p := by
  induction p generalizing q with
  | nil => cases q <;> simp [diverge]
  | cons a p ih =>
    cases q with
    | nil => simp [diverge]
    | cons b q =>
      by_cases h : a = b
      · subst h; simp [diverge, ih]
      · simp [diverge, h, Ne.symm h]

theorem diverge_append_left (c a b : List String) :
    diverge (c ++ a) (c ++ b) = diverge a b := by
  induction c with
  | nil => rfl
  | cons x c ih => simp [diverge, ih]

theorem diverge_cons_ne {x y : String} (s t : List String) (h : x ≠ y) :
    diverge (x :: s) (y :: t) = true := by simp [diverge, h]

theorem pairwise_of_len_le_one {R : Issue → Issue → Prop} {l : List Issue}
    (h : l.length ≤ 1) : l.Pairwise R := by
  rcases l with _ | ⟨a, rest⟩
  · simp
  · rcases rest with _ | ⟨b, t⟩
    · simp
    · simp at h

theorem vNonemptyString_len (p : List Seg) (msg : String) (ov : Option Val) :
    (vNonemptyString p msg ov).1.length ≤ 1 := by
  rcases ov with _ | v
  · simp [vNonemptyString]
  · rcases v with s | ⟨b, fs⟩
    · by_cases h : s = "" <;> simp [vNonemptyString, h]
    · simp [vNonemptyString]

theorem vQType_len (p : List Seg) (ov : Option Val) : (vQType p ov).1.length ≤ 1 := by
  rcases ov with _ | v
  · simp [vQType]
  · rcases v with s | ⟨b, fs⟩
    · rcases h : qtypeOfString s with _ | t <;> simp [vQType, h]
    · simp [vQType]

theorem vOptionItem_len (p : List Seg) (v : Val) : (vOptionItem p v).1.length ≤ 1 := by
  rcases v with s | ⟨b, fs⟩
  · simp [vOptionItem]
  · rcases b with _ | _
    · rcases h : vNonemptyString (p ++ [.key "label"]) "Label required" (getKey fs "label")
        with ⟨is, os⟩
      have hlen := vNonemptyString_len (p ++ [.key "label"]) "Label required" (getKey fs "label")
      rw [h] at hlen
      rcases os with _ | s <;> simpa [vOptionItem, h] using hlen
    · simp [vOptionItem]

theorem keyPath_diverge_of_append {P : List Seg} {x y : Seg} {s t : List Seg}
    {a b : Issue} (ha : a.path = (P ++ [x]) ++ s) (hb : b.path = (P ++ [y]) ++ t)
    (hxy : segKey x ≠ segKey y) :
    diverge (keyPath a) (keyPath b) = true := by
  unfold keyPath
  rw [ha, hb]
  simp only [List.map_append, List.map_cons, List.map_nil, List.append_assoc,
    List.singleton_append]
  rw [diverge_append_left]
  exact diverge_cons_ne _ _ hxy

theorem vOptionList_flat (p : List Seg) (vs : List Val) : ∀ (j : Nat),
    ((vOptionList p j vs).1.Pairwise fun a b => diverge (keyPath a) (keyPath b) = true) ∧
    ∀ a ∈ (vOptionList p j vs).1, ∃ k s, j ≤ k ∧ a.path = (p ++ [.idx k]) ++ s := by
  induction vs with
  | nil => intro j; simp [vOptionList]
  | cons v rest ih =>
    intro j
    have hitem := vOptionItem_paths (p ++ [.idx j]) v
    have hrest := ih (j + 1)
    constructor
    · show ((vOptionItem (p ++ [.idx j]) v).1 ++ (vOptionList p (j + 1) rest).1).Pairwise _
      rw [List.pairwise_append]
      refine ⟨pairwise_of_len_le_one (vOptionItem_len _ v), hrest.1, ?_⟩
      intro a ha b hb
      obtain ⟨sa, hsa⟩ := hitem a ha
      obtain ⟨k, sb, hk, hsb⟩ := hrest.2 b hb
      exact keyPath_diverge_of_append hsa hsb
        (toString_nat_ne j k (by omega))
    · intro a ha
      have ha2 : a ∈ (vOptionItem (p ++ [.idx j]) v).1 ++ (vOptionList p (j + 1) rest).1 := ha
      rcases List.mem_append.mp ha2 with ha | ha
      · obtain ⟨sa, hsa⟩ := hitem a ha
        exact ⟨j, sa, le_rfl, hsa⟩
      · obtain ⟨k, sb, hk, hsb⟩ := hrest.2 a ha
        exact ⟨k, sb, by omega, hsb⟩

theorem vOptions_flat (p : List Seg) (ov : Option Val) :
    (vOptions p ov).1.Pairwise fun a b => diverge (keyPath a) (keyPath b) = true := by
  rcases ov with _ | v
  · simp [vOptions]
  · rcases v with s | ⟨b, fs⟩
    · simp [vOptions]
    · rcases b with _ | _
      · simp [vOptions]
      · show ((vOptionList p 0 (fs.map Prod.snd)).1).Pairwise _
        exact (vOptionList_flat p (fs.map Prod.snd) 0).1

theorem vQuestion_flat (p : List Seg) (v : Val) :
    ((vQuestion p v).1.Pairwise fun a b => diverge (keyPath a) (keyPath b) = true) ∧
    ∀ a ∈ (vQuestion p v).1, ∃ s, a.path = p ++ s := by
  refine ⟨?_, fun a ha => vQuestion_paths p v a ha⟩
  rcases v with s | ⟨b, fs⟩
  · simp [vQuestion]
  · rcases b with _ | _
    · show (((vNonemptyString (p ++ [.key "name"]) "Name required" (getKey fs "name")).1 ++
          (vQType (p ++ [.key "type"]) (getKey fs "type")).1) ++
          (vOptions (p ++ [.key "options"]) (getKey fs "options")).1).Pairwise _
      rw [List.pairwise_append, List.pairwise_append]
      have hn := vNonemptyString_paths (p ++ [.key "name"]) "Name required" (getKey fs "name")
      have ht := vQType_paths (p ++ [.key "type"]) (getKey fs "type")
      have ho := vOptions_paths (p ++ [.key "options"]) (getKey fs "options")
      refine ⟨⟨pairwise_of_len_le_one (vNonemptyString_len _ _ _),
        pairwise_of_len_le_one (vQType_len _ _), ?_⟩, vOptions_flat _ _, ?_⟩
      · intro a ha b hb
        exact keyPath_diverge_of_append
          (show a.path = (p ++ [.key "name"]) ++ [] by simp [hn a ha])
          (show b.path = (p ++ [.key "type"]) ++ [] by simp [ht b hb])
          (by decide)
      · intro a ha b hb
        obtain ⟨sb, hsb⟩ := ho b hb
        rcases List.mem_append.mp ha with ha | ha
        · exact keyPath_diverge_of_append
            (show a.path = (p ++ [.key "name"]) ++ [] by simp [hn a ha])
            (show b.path = (p ++ [.key "options"]) ++ sb by simpa using hsb)
            (by decide)
        · exact keyPath_diverge_of_append
            (show a.path = (p ++ [.key "type"]) ++ [] by simp [ht a ha])
            (show b.path = (p ++ [.key "options"]) ++ sb by simpa using hsb)
            (by decide)
    · simp [vQuestion]

theorem vQuestionList_flat (vs : List Val) : ∀ (i : Nat),
    ((vQuestionList i vs).1.Pairwise fun a b => diverge (keyPath a) (keyPath b) = true) ∧
    ∀ a ∈ (vQuestionList i vs).1, ∃ k s, i ≤ k ∧
      a.path = ([.key "questions"] ++ [.idx k]) ++ s := by
  induction vs with
  | nil => intro i; simp [vQuestionList]
  | cons v rest ih =>
    intro i
    have hq := vQuestion_flat [.key "questions", .idx i] v
    have hrest := ih (i + 1)
    constructor
    · show ((vQuestion [.key "questions", .idx i] v).1 ++
          (vQuestionList (i + 1) rest).1).Pairwise _
      rw [List.pairwise_append]
      refine ⟨hq.1, hrest.1, ?_⟩
      intro a ha b hb
      obtain ⟨sa, hsa⟩ := hq.2 a ha
      obtain ⟨k, sb, hk, hsb⟩ := hrest.2 b hb
      exact keyPath_diverge_of_append
        (show a.path = ([.key "questions"] ++ [.idx i]) ++ sa by simpa using hsa)
        hsb (toString_nat_ne i k (by omega))
    · intro a ha
      have ha2 : a ∈ (vQuestion [.key "questions", .idx i] v).1 ++
        (vQuestionList (i + 1) rest).1 := ha
      rcases List.mem_append.mp ha2 with ha | ha
      · obtain ⟨sa, hsa⟩ := hq.2 a ha
        exact ⟨i, sa, le_rfl, by simpa using hsa⟩
      · obtain ⟨k, sb, hk, hsb⟩ := hrest.2 a ha
        exact ⟨k, sb, by omega, hsb⟩

theorem vQuestions_flat (ov : Option Val) :
    (vQuestions ov).1.Pairwise fun a b => diverge (keyPath a) (keyPath b) = true := by
  rcases ov with _ | v
  · simp [vQuestions]
  · rcases v with s | ⟨b, fs⟩
    · simp [vQuestions]
    · rcases b with _ | _
      · simp [vQuestions]
      · exact (vQuestionList_flat (fs.map Prod.snd) 0).1

theorem formValidate_obj_flat (fs : List (String × Val)) :
    ((formValidate (.obj false fs)).1.Pairwise
      fun a b => diverge (keyPath a) (keyPath b) = true) ∧
    ∀ a ∈ (formValidate (.obj false fs)).1, a.path ≠ [] := by
  have ht := vNonemptyString_paths [.key "title"] "Title required" (getKey fs "title")
  have hqp := vQuestions_paths (getKey fs "questions")
  constructor
  · show ((vNonemptyString [.key "title"] "Title required" (getKey fs "title")).1 ++
        (vQuestions (getKey fs "questions")).1).Pairwise _
    rw [List.pairwise_append]
    refine ⟨pairwise_of_len_le_one (vNonemptyString_len _ _ _), vQuestions_flat _, ?_⟩
    intro a ha b hb
    obtain ⟨sb, hsb⟩ := hqp b hb
    exact keyPath_diverge_of_append
      (show a.path = (([] : List Seg) ++ [.key "title"]) ++ [] by simp [ht a ha])
      (show b.path = (([] : List Seg) ++ [.key "questions"]) ++ sb by simpa using hsb)
      (by decide)
  · intro a ha
    have ha2 : a ∈ (vNonemptyString [.key "title"] "Title required" (getKey fs "title")).1 ++
      (vQuestions (getKey fs "questions")).1 := ha
    rcases List.mem_append.mp ha2 with ha | ha
    · simp [ht a ha]
    · obtain ⟨sb, hsb⟩ := hqp a ha
      simp [hsb]

/-- Every issue list the action's validation actually produces satisfies
the error-mapper theorem's hypotheses: all paths are non-empty, and
distinct key paths pairwise diverge. -/
theorem action_issues_compatible (body : List (List String × String)) :
    (∀ a ∈ (formValidate (qsParse body)).1, a.path ≠ []) ∧
    ∀ a ∈ (formValidate (qsParse body)).1, ∀ b ∈ (formValidate (qsParse body)).1,
      keyPath a ≠ keyPath b → diverge (keyPath a) (keyPath b) = true := by
  have hflat := formValidate_obj_flat (qsFold [] (body.take 1000))
  refine ⟨hflat.2, ?_⟩
  intro a ha b hb hne
  exact hflat.1.forall
    (fun x y (h : diverge (keyPath x) (keyPath y) = true) => by
      rw [diverge_symm]; exact h)
    ha hb (fun h => hne (congrArg keyPath h))

/-! ## Helper lemmas: parsing the flattened form into the canonical shape -/

theorem putKey_cons_self (a : String) (w : Val) (rest : List (String × Val)) (v : Val) :
    putKey ((a, w) :: rest) a v = (a, v) :: rest := by
  simp [putKey]

theorem qsSet_cons₂ (fs : List (String × Val)) (k k2 : String) (rest : List String)
    (m : String) :
    qsSet fs (k :: k2 :: rest) m =
      putKey fs k (match getKey fs k with
        | some (.obj cb cfs) => Val.obj (cb && isArrSeg k2) (qsSet cfs (k2 :: rest) m)
        | _ => Val.obj (isArrSeg k2) (qsSet [] (k2 :: rest) m)) := by
  rcases hg : getKey fs k with _ | w
  · simp [qsSet, hg]
  · rcases w with s | ⟨wb, wfs⟩ <;> simp [qsSet, hg]

theorem qsSet_found (fs : List (String × Val)) (k k2 : String) (rest : List String)
    (m : String) (b : Bool) (cfs : List (String × Val))
    (h : getKey fs k = some (.obj b cfs)) :
    qsSet fs (k :: k2 :: rest) m
      = putKey fs k (.obj (b && isArrSeg k2) (qsSet cfs (k2 :: rest) m)) := by
  rw [qsSet_cons₂, h]

theorem qsSet_missing (fs : List (String × Val)) (k k2 : String) (rest : List String)
    (m : String) (h : getKey fs k = none) :
    qsSet fs (k :: k2 :: rest) m
      = putKey fs k (.obj (isArrSeg k2) (qsSet [] (k2 :: rest) m)) := by
  rw [qsSet_cons₂, h]

/-- Inserting under `questions` into the two-field page state touches only
the questions array (whose array-ness survives exactly when the index is in
range). -/
theorem qsSet_state (tv : Val) (done : List (String × Val)) (k2 : String)
    (rest : List String) (m : String) :
    qsSet [("title", tv), ("questions", .obj true done)] ("questions" :: k2 :: rest) m
      = [("title", tv), ("questions", .obj (isArrSeg k2) (qsSet done (k2 :: rest) m))] := rfl

/-- Creating the `questions` key on first insertion is the same as starting
from an empty array, for an in-range index. -/
theorem questions_scratch (tv : Val) (i : Nat) (rest : List String) (v : String)
    (hi : i ≤ 20) :
    qsSet [("title", tv)] ("questions" :: toString i :: rest) v
      = qsSet [("title", tv), ("questions", .obj true [])]
          ("questions" :: toString i :: rest) v := by
  rw [qsSet_cons₂, qsSet_cons₂, isArrSeg_toString_le i hi]
  rfl

/-- Creating the `options` key on a question's first option label is the
same as starting from an empty array, for an in-range index. -/
theorem options_scratch (nv tv2 : Val) (j : Nat) (rest : List String) (v : String)
    (hj : j ≤ 20) :
    qsSet [("name", nv), ("type", tv2)] ("options" :: toString j :: rest) v
      = qsSet [("name", nv), ("type", tv2), ("options", .obj true [])]
          ("options" :: toString j :: rest) v := by
  rw [qsSet_cons₂, qsSet_cons₂, isArrSeg_toString_le j hj]
  rfl

theorem insert_name (tv : Val) (done : List (String × Val)) (i : Nat) (v : String)
    (hfresh : getKey done (toString i) = none) (hi : i ≤ 20) :
    qsSet [("title", tv), ("questions", .obj true done)]
        ["questions", toString i, "name"] v
      = [("title", tv), ("questions", .obj true
          (done ++ [(toString i, .obj false [("name", .str v)])]))] := by
  rw [qsSet_state, isArrSeg_toString_le i hi,
    qsSet_missing done (toString i) "name" [] v hfresh,
    putKey_of_none done _ _ hfresh]
  rfl

theorem insert_type (tv nv : Val) (done : List (String × Val)) (i : Nat) (v : String)
    (hfresh : getKey done (toString i) = none) (hi : i ≤ 20) :
    qsSet [("title", tv), ("questions", .obj true
        (done ++ [(toString i, .obj false [("name", nv)])]))]
        ["questions", toString i, "type"] v
      = [("title", tv), ("questions", .obj true
          (done ++ [(toString i, .obj false [("name", nv), ("type", .str v)])]))] := by
  have hg1 : getKey (done ++ [(toString i, Val.obj false [("name", nv)])]) (toString i)
      = some (.obj false [("name", nv)]) := by
    rw [getKey_append_of_none _ _ _ hfresh, getKey_singleton_self]
  rw [qsSet_state, isArrSeg_toString_le i hi,
    qsSet_found _ (toString i) "type" [] v false [("name", nv)] hg1,
    putKey_append_of_none _ _ _ _ hfresh, putKey_cons_self]
  rfl

theorem insert_label (tv nv tv2 : Val) (done odone : List (String × Val)) (i j : Nat)
    (v : String)
    (hfresh : getKey done (toString i) = none)
    (hofresh : getKey odone (toString j) = none)
    (hi : i ≤ 20) (hj : j ≤ 20) :
    qsSet [("title", tv), ("questions", .obj true (done ++ [(toString i,
        .obj false [("name", nv), ("type", tv2), ("options", .obj true odone)])]))]
        ["questions", toString i, "options", toString j, "label"] v
      = [("title", tv), ("questions", .obj true (done ++ [(toString i,
          .obj false [("name", nv), ("type", tv2), ("options", .obj true
            (odone ++ [(toString j, .obj false [("label", .str v)])]))])]))] := by
  have hinner : qsSet [("name", nv), ("type", tv2), ("options", Val.obj true odone)]
      ["options", toString j, "label"] v
      = [("name", nv), ("type", tv2), ("options", Val.obj true
          (odone ++ [(toString j, Val.obj false [("label", Val.str v)])]))] := by
    rw [qsSet_found [("name", nv), ("type", tv2), ("options", Val.obj true odone)]
        "options" (toString j) ["label"] v true odone rfl,
      isArrSeg_toString_le j hj,
      qsSet_missing odone (toString j) "label" [] v hofresh,
      putKey_of_none odone _ _ hofresh]
    rfl
  have hg1 : getKey (done ++ [(toString i, Val.obj false
      [("name", nv), ("type", tv2), ("options", Val.obj true odone)])]) (toString i)
      = some (.obj false [("name", nv), ("type", tv2), ("options", Val.obj true odone)]) := by
    rw [getKey_append_of_none _ _ _ hfresh, getKey_singleton_self]
  rw [qsSet_state, isArrSeg_toString_le i hi,
    qsSet_found _ (toString i) "options" [toString j, "label"] v false
      [("name", nv), ("type", tv2), ("options", Val.obj true odone)] hg1,
    hinner, putKey_append_of_none _ _ _ _ hfresh, putKey_cons_self]
  rfl

theorem insert_first_label (tv nv tv2 : Val) (done : List (String × Val)) (i j : Nat)
    (v : String)
    (hfresh : getKey done (toString i) = none)
    (hi : i ≤ 20) (hj : j ≤ 20) :
    qsSet [("title", tv), ("questions", .obj true (done ++ [(toString i,
        .obj false [("name", nv), ("type", tv2)])]))]
        ["questions", toString i, "options", toString j, "label"] v
      = qsSet [("title", tv), ("questions", .obj true (done ++ [(toString i,
          .obj false [("name", nv), ("type", tv2), ("options", .obj true [])])]))]
        ["questions", toString i, "options", toString j, "label"] v := by
  have hg1 : getKey (done ++ [(toString i, Val.obj false
      [("name", nv), ("type", tv2)])]) (toString i)
      = some (.obj false [("name", nv), ("type", tv2)]) := by
    rw [getKey_append_of_none _ _ _ hfresh, getKey_singleton_self]
  have hg2 : getKey (done ++ [(toString i, Val.obj false
      [("name", nv), ("type", tv2), ("options", Val.obj true [])])]) (toString i)
      = some (.obj false [("name", nv), ("type", tv2), ("options", Val.obj true [])]) := by
    rw [getKey_append_of_none _ _ _ hfresh, getKey_singleton_self]
  rw [qsSet_state, qsSet_state, isArrSeg_toString_le i hi,
    qsSet_found _ (toString i) "options" [toString j, "label"] v false
      [("name", nv), ("type", tv2)] hg1,
    qsSet_found _ (toString i) "options" [toString j, "label"] v false
      [("name", nv), ("type", tv2), ("options", Val.obj true [])] hg2,
    options_scratch nv tv2 j ["label"] v hj,
    putKey_append_of_none _ _ _ _ hfresh, putKey_cons_self,
    putKey_append_of_none _ _ _ _ hfresh, putKey_cons_self]

theorem qsFold_append (fs : List (String × Val)) (a b : List (List String × String)) :
    qsFold fs (a ++ b) = qsFold (qsFold fs a) b := by
  induction a generalizing fs with
  | nil => rfl
  | cons kv rest ih => simp [qsFold, ih]

theorem qsFold_options (tv nv tv2 : Val) (i : Nat) (l : List OptionItem)
    (hi : i ≤ 20) :
    ∀ (j : Nat) (done odone : List (String × Val)),
      j + l.length ≤ 21 →
      getKey done (toString i) = none →
      (∀ j', j ≤ j' → getKey odone (toString j') = none) →
      qsFold [("title", tv), ("questions", .obj true (done ++ [(toString i,
          .obj false [("name", nv), ("type", tv2), ("options", .obj true odone)])]))]
        (flattenOptions i j l)
      = [("title", tv), ("questions", .obj true (done ++ [(toString i,
          .obj false [("name", nv), ("type", tv2), ("options", .obj true
            (odone ++ encOptionList j l))])]))] := by
  induction l with
  | nil =>
    intro j done odone hlim hfresh hofresh
    simp [flattenOptions, encOptionList, qsFold]
  | cons o rest ih =>
    intro j done odone hlim hfresh hofresh
    have hstep := insert_label tv nv tv2 done odone i j o.label hfresh (hofresh j le_rfl)
      hi (by simp at hlim; omega)
    have hofresh' : ∀ j', j + 1 ≤ j' →
        getKey (odone ++ [(toString j, Val.obj false [("label", Val.str o.label)])])
          (toString j') = none := by
      intro j' hj'
      rw [getKey_append_of_none _ _ _ (hofresh j' (by omega)),
        getKey_singleton_ne _ _ _ (toString_nat_ne j' j (by omega))]
    show qsFold (qsSet [("title", tv), ("questions", .obj true (done ++ [(toString i,
        .obj false [("name", nv), ("type", tv2), ("options", .obj true odone)])]))]
        ["questions", toString i, "options", toString j, "label"] o.label)
      (flattenOptions i (j + 1) rest) = _
    rw [hstep, ih (j + 1) done
      (odone ++ [(toString j, Val.obj false [("label", Val.str o.label)])])
      (by simp at hlim ⊢; omega) hfresh hofresh']
    simp [encOptionList, List.append_assoc]

theorem qsFold_question (tv : Val) (i : Nat) (q : Question) (done : List (String × Val))
    (hfresh : getKey done (toString i) = none) (hi : i ≤ 20)
    (hopt : (q.options.getD []).length ≤ 21) :
    qsFold [("title", tv), ("questions", .obj true done)] (flattenQuestion i q)
      = [("title", tv), ("questions", .obj true (done ++ [(toString i, encQuestion q)]))] := by
  obtain ⟨nm, t, os⟩ := q
  show qsFold (qsSet [("title", tv), ("questions", .obj true done)]
      ["questions", toString i, "name"] nm)
    ((["questions", toString i, "type"], qtypeStr t) ::
      (if t = QType.RADIOLIST then flattenOptions i 0 (os.getD []) else [])) = _
  rw [insert_name tv done i nm hfresh hi]
  show qsFold (qsSet [("title", tv), ("questions", .obj true
      (done ++ [(toString i, .obj false [("name", .str nm)])]))]
      ["questions", toString i, "type"] (qtypeStr t))
    (if t = QType.RADIOLIST then flattenOptions i 0 (os.getD []) else []) = _
  rw [insert_type tv (.str nm) done i (qtypeStr t) hfresh hi]
  by_cases hR : t = QType.RADIOLIST
  · subst hR
    rcases os with _ | l
    · simp [qsFold, flattenOptions, encQuestion, encOptions]
    · rcases l with _ | ⟨o, rest⟩
      · simp [qsFold, flattenOptions, encQuestion, encOptions]
      · rw [if_pos rfl]
        have hrlen : rest.length ≤ 20 := by
          simp only [Option.getD_some, List.length_cons] at hopt
          omega
        show qsFold (qsSet [("title", tv), ("questions", .obj true (done ++ [(toString i,
            .obj false [("name", .str nm), ("type", .str (qtypeStr QType.RADIOLIST))])]))]
            ["questions", toString i, "options", toString 0, "label"] o.label)
          (flattenOptions i 1 rest) = _
        rw [insert_first_label tv (.str nm) (.str (qtypeStr QType.RADIOLIST)) done i 0
          o.label hfresh hi (by omega)]
        rw [insert_label tv (.str nm) (.str (qtypeStr QType.RADIOLIST)) done [] i 0
          o.label hfresh rfl hi (by omega)]
        have hrest := qsFold_options tv (.str nm) (.str (qtypeStr QType.RADIOLIST)) i rest
          hi 1 done [(toString 0, Val.obj false [("label", Val.str o.label)])]
          (by omega) hfresh
          (fun j' hj' => getKey_singleton_ne _ _ _ (toString_nat_ne j' 0 (by omega)))
        rw [show ([] : List (String × Val)) ++
            [(toString 0, Val.obj false [("label", Val.str o.label)])]
            = [(toString 0, Val.obj false [("label", Val.str o.label)])] from rfl]
        rw [hrest]
        simp [encQuestion, encOptions, encOptionList]
  · rw [if_neg hR]
    have henc : encQuestion ⟨nm, t, os⟩
        = .obj false [("name", .str nm), ("type", .str (qtypeStr t))] := by
      simp [encQuestion, encOptions, hR]
    rw [henc]
    rfl

theorem qsFold_questions (tv : Val) (l : List Question) :
    ∀ (i : Nat) (done : List (String × Val)),
      i + l.length ≤ 21 →
      (∀ q ∈ l, (q.options.getD []).length ≤ 21) →
      (∀ j, i ≤ j → getKey done (toString j) = none) →
      qsFold [("title", tv), ("questions", .obj true done)] (flattenQuestions i l)
        = [("title", tv), ("questions", .obj true (done ++ encQList i l))] := by
  induction l with
  | nil =>
    intro i done hlim hol hfresh
    simp [flattenQuestions, encQList, qsFold]
  | cons q rest ih =>
    intro i done hlim hol hfresh
    show qsFold [("title", tv), ("questions", .obj true done)]
      (flattenQuestion i q ++ flattenQuestions (i + 1) rest) = _
    rw [qsFold_append, qsFold_question tv i q done (hfresh i le_rfl)
      (by simp at hlim; omega) (hol q (by simp))]
    have hfresh' : ∀ j, i + 1 ≤ j →
        getKey (done ++ [(toString i, encQuestion q)]) (toString j) = none := by
      intro j hj
      rw [getKey_append_of_none _ _ _ (hfresh j (by omega)),
        getKey_singleton_ne _ _ _ (toString_nat_ne j i (by omega))]
    rw [ih (i + 1) (done ++ [(toString i, encQuestion q)])
      (by simp at hlim ⊢; omega) (fun x hx => hol x (by simp [hx])) hfresh']
    simp [encQList, List.append_assoc]

theorem flattenOptions_length (i : Nat) (l : List OptionItem) :
    ∀ j, (flattenOptions i j l).length = l.length := by
  induction l with
  | nil => intro j; rfl
  | cons o rest ih => intro j; simp [flattenOptions, ih (j + 1)]

theorem flattenQuestions_length (l : List Question)
    (h : ∀ q ∈ l, (q.options.getD []).length ≤ 21) :
    ∀ i, (flattenQuestions i l).length ≤ 23 * l.length := by
  induction l with
  | nil => intro i; simp [flattenQuestions]
  | cons q rest ih =>
    intro i
    have hq : (flattenQuestion i q).length ≤ 23 := by
      simp only [flattenQuestion, List.length_cons]
      by_cases hR : q.qtype = QType.RADIOLIST
      · rw [if_pos hR, flattenOptions_length]
        have := h q (by simp)
        omega
      · rw [if_neg hR]
        simp
    have hrest := ih (fun x hx => h x (by simp [hx])) (i + 1)
    show (flattenQuestion i q ++ flattenQuestions (i + 1) rest).length ≤ _
    rw [List.length_append]
    simp only [List.length_cons]
    omega

theorem flatten_take_all (f : QForm)
    (hq21 : f.questions.length ≤ 21)
    (ho21 : ∀ q ∈ f.questions, (q.options.getD []).length ≤ 21) :
    (flatten f).take 1000 = flatten f := by
  apply List.take_of_length_le
  show ((["title"], f.title) :: flattenQuestions 0 f.questions).length ≤ 1000
  rw [List.length_cons]
  have := flattenQuestions_length f.questions ho21 0
  omega

theorem qsParse_flatten (f : QForm) (hne : f.questions ≠ [])
    (hq21 : f.questions.length ≤ 21)
    (ho21 : ∀ q ∈ f.questions, (q.options.getD []).length ≤ 21) :
    qsParse (flatten f) = encodeForm f := by
  have htake := flatten_take_all f hq21 ho21
  show Val.obj false (qsFold [] ((flatten f).take 1000)) = _
  rw [htake]
  obtain ⟨t, qs⟩ := f
  rcases qs with _ | ⟨q, rest⟩
  · exact absurd rfl hne
  · show Val.obj false (qsFold (qsSet [] ["title"] t)
      (flattenQuestions 0 (q :: rest))) = _
    have hstep1 : qsFold [("title", Val.str t)] (flattenQuestions 0 (q :: rest))
        = qsFold [("title", Val.str t), ("questions", .obj true [])]
            (flattenQuestions 0 (q :: rest)) := by
      show qsFold (qsSet [("title", Val.str t)]
          ["questions", toString 0, "name"] q.name) _ = _
      rw [questions_scratch (Val.str t) 0 ["name"] q.name (by omega)]
      rfl
    have hmain := qsFold_questions (Val.str t) (q :: rest) 0 []
      (by simpa using hq21) ho21 (fun j _ => rfl)
    show Val.obj false (qsFold [("title", Val.str t)] (flattenQuestions 0 (q :: rest))) = _
    rw [hstep1, hmain]
    rfl

/-! ## Helper lemmas: validating the canonical parsed shapes -/

theorem encOptionList_snd (j : Nat) (l : List OptionItem) :
    (encOptionList j l).map Prod.snd
      = l.map (fun o => Val.obj false [("label", .str o.label)]) := by
  induction l generalizing j with
  | nil => rfl
  | cons o rest ih => simp [encOptionList, ih]

theorem vOptionItem_enc (p : List Seg) (o : OptionItem) (h : o.label ≠ "") :
    vOptionItem p (.obj false [("label", .str o.label)]) = ([], some o) := by
  obtain ⟨l⟩ := o
  simp only at h
  simp [vOptionItem, vNonemptyString, getKey, h]

theorem vOptionList_enc (p : List Seg) (l : List OptionItem)
    (h : ∀ o ∈ l, o.label ≠ "") :
    ∀ j, vOptionList p j (l.map fun o => Val.obj false [("label", .str o.label)])
      = ([], some l) := by
  induction l with
  | nil => intro j; rfl
  | cons o rest ih =>
    intro j
    have h1 := vOptionItem_enc (p ++ [.idx j]) o (h o (by simp))
    have h2 := ih (fun x hx => h x (by simp [hx])) (j + 1)
    simp [vOptionList, h1, h2]

theorem qtypeOfString_qtypeStr (t : QType) : qtypeOfString (qtypeStr t) = some t := by
  cases t <;> rfl

theorem vQuestion_enc (p : List Seg) (q : Question)
    (hwf : wfQuestion q = true) (hopt : q.options ≠ some []) :
    vQuestion p (encQuestion q) = ([], some q) := by
  obtain ⟨nm, t, os⟩ := q
  simp only [wfQuestion, Bool.and_eq_true, bne_iff_ne, ne_eq, Bool.or_eq_true, beq_iff_eq,
    Option.isNone_iff_eq_none] at hwf
  obtain ⟨⟨hname, htype⟩, hlabels⟩ := hwf
  have hrn : vNonemptyString (p ++ [.key "name"]) "Name required"
      (some (.str nm)) = ([], some nm) := by
    simp [vNonemptyString, hname]
  have hrt : vQType (p ++ [.key "type"])
      (some (.str (qtypeStr t))) = ([], some t) := by
    simp [vQType, qtypeOfString_qtypeStr]
  have hro : vOptions (p ++ [.key "options"])
      (getKey (encOptions ⟨nm, t, os⟩) "options") = ([], some os) := by
    by_cases hR : t = QType.RADIOLIST
    · subst hR
      rcases os with _ | l
      · rfl
      · rcases l with _ | ⟨o, rest⟩
        · exact absurd rfl hopt
        · simp only [List.all_eq_true, bne_iff_ne, ne_eq] at hlabels
          have hget : getKey (encOptions ⟨nm, QType.RADIOLIST, some (o :: rest)⟩) "options"
              = some (.obj true (encOptionList 0 (o :: rest))) := rfl
          rw [hget]
          show ((vOptionList (p ++ [Seg.key "options"]) 0
                ((encOptionList 0 (o :: rest)).map Prod.snd)).1,
              (vOptionList (p ++ [Seg.key "options"]) 0
                ((encOptionList 0 (o :: rest)).map Prod.snd)).2.map some)
            = ([], some (some (o :: rest)))
          rw [encOptionList_snd]
          have hve := vOptionList_enc (p ++ [Seg.key "options"]) (o :: rest) hlabels 0
          rw [hve]
          rfl
    · have hos : os = none := htype.resolve_left hR
      subst hos
      have henc : encOptions ⟨nm, t, none⟩ = [] := by
        simp [encOptions, hR]
      rw [henc]
      rfl
  rw [show encQuestion ⟨nm, t, os⟩ = .obj false (("name", Val.str nm) ::
    ("type", Val.str (qtypeStr t)) :: encOptions ⟨nm, t, os⟩) from rfl]
  simp only [vQuestion]
  rw [show getKey (("name", Val.str nm) :: ("type", Val.str (qtypeStr t)) ::
      encOptions ⟨nm, t, os⟩) "name" = some (Val.str nm) from rfl,
    show getKey (("name", Val.str nm) :: ("type", Val.str (qtypeStr t)) ::
      encOptions ⟨nm, t, os⟩) "type" = some (Val.str (qtypeStr t)) from rfl,
    show getKey (("name", Val.str nm) :: ("type", Val.str (qtypeStr t)) ::
      encOptions ⟨nm, t, os⟩) "options" = getKey (encOptions ⟨nm, t, os⟩) "options" from rfl,
    hrn, hrt, hro]
  rfl

theorem encQList_snd (i : Nat) (l : List Question) :
    (encQList i l).map Prod.snd = l.map encQuestion := by
  induction l generalizing i with
  | nil => rfl
  | cons q rest ih => simp [encQList, ih]

theorem vQuestionList_enc (l : List Question)
    (hwf : ∀ q ∈ l, wfQuestion q = true) (hopt : ∀ q ∈ l, q.options ≠ some []) :
    ∀ i, vQuestionList i (l.map encQuestion) = ([], some l) := by
  induction l with
  | nil => intro i; rfl
  | cons q rest ih =>
    intro i
    have h1 := vQuestion_enc [.key "questions", .idx i] q (hwf q (by simp)) (hopt q (by simp))
    have h2 := ih (fun x hx => hwf x (by simp [hx])) (fun x hx => hopt x (by simp [hx])) (i + 1)
    simp [vQuestionList, h1, h2]

theorem formValidate_encodeForm (f : QForm) (hwf : wellFormed f = true)
    (hopt : noEmptyOptions f = true) :
    formValidate (encodeForm f) = ([], some f) := by
  obtain ⟨t, qs⟩ := f
  simp only [wellFormed, noEmptyOptions, Bool.and_eq_true, bne_iff_ne, ne_eq,
    List.all_eq_true] at hwf hopt
  have hlist := vQuestionList_enc qs hwf.2 hopt 0
  simp [encodeForm, formValidate, vNonemptyString, vQuestions, getKey, hwf.1,
    encQList_snd, hlist]

/-- C1: for every submitted payload, the action redirects to the fixed
success location `/templates/1` exactly when validation of the
reconstructed payload produced no issue; when validation fails it instead
returns the `{ errors }` JSON object built from the issues, and performs no
redirect. -/
theorem action_redirects_iff_valid (body : List (List String × String)) :
    (action body = .redirectTo "/templates/1" ↔ (formValidate (qsParse body)).1 = []) ∧
    ((formValidate (qsParse body)).1 ≠ [] →
      action body = .jsonErrors (buildTree (formValidate (qsParse body)).1) ∧
        ∀ loc, action body ≠ .redirectTo loc) := by
  unfold action
  rcases h : (formValidate (qsParse body)).1 with _ | ⟨i, rest⟩
  · simp [h]
  · simp [h]

/-- Witness for C1 at the empty payload (whose validation fails). -/
theorem action_redirects_iff_valid_witness :
    action [] = .jsonErrors (buildTree (formValidate (qsParse [])).1) ∧
      ∀ loc, action [] ≠ .redirectTo loc :=
  (action_redirects_iff_valid []).2 (by decide)

/-- C2: the error tree the form displays is the live client tree whenever
that tree is non-empty; the server tree is displayed exactly when the
client tree is empty and a server tree exists; with no server tree the
client tree is displayed. -/
theorem displayedErrors_precedence (serverErrors : Option Val) (clientErrors : Val) :
    (isEmptyVal clientErrors = false →
      displayedErrors serverErrors clientErrors = clientErrors) ∧
    (∀ s, serverErrors = some s → isEmptyVal clientErrors = true →
      displayedErrors serverErrors clientErrors = s) ∧
    (serverErrors = none → displayedErrors serverErrors clientErrors = clientErrors) := by
  refine ⟨fun h => ?_, fun s hs he => ?_, fun h => ?_⟩
  · cases serverErrors <;> simp [displayedErrors, h]
  · subst hs; simp [displayedErrors, he]
  · subst h; rfl

/-- Witness for C2: an empty client tree falls back to the server tree. -/
theorem displayedErrors_precedence_witness :
    displayedErrors (some (.obj false [("title", .str "Title required")])) (.obj false [])
      = .obj false [("title", .str "Title required")] :=
  (displayedErrors_precedence (some (.obj false [("title", .str "Title required")]))
    (.obj false [])).2.1 _ rfl rfl

/-- C3: building the error tree nests one level per path segment with the
message at the leaf, and a later entry at the same path overwrites an
earlier one, without error: for every list of (path, message) issues whose
distinct paths pairwise diverge (no path extends another — validation
outputs never do; equal paths, i.e. collisions, are allowed), looking a
listed path up in the built tree yields exactly the message of the *last*
issue carrying that path. -/
theorem errorMapper_nested_overwrite (issues : List Issue)
    (hne : ∀ a ∈ issues, a.path ≠ [])
    (hdiv : ∀ a ∈ issues, ∀ b ∈ issues,
      keyPath a ≠ keyPath b → diverge (keyPath a) (keyPath b) = true) :
    ∀ a ∈ issues,
      jsGet (buildTree issues) a.path = (lastMsgAt (keyPath a) issues).map Val.str := by
  induction issues using List.reverseRecOn with
  | nil => intro a ha; cases ha
  | append_singleton is b ih =>
    intro a ha
    have hfold : buildFields (is ++ [b]) = setPath (buildFields is) (keyPath b) b.message := by
      simp [buildFields, List.foldl_append, keyPath]
    have hglue : jsGet (buildTree (is ++ [b])) a.path
        = getF (.obj false (setPath (buildFields is) (keyPath b) b.message)) (keyPath a) := by
      show getF (.obj false (buildFields (is ++ [b]))) (a.path.map segKey) = _
      rw [hfold]; rfl
    by_cases hab : keyPath a = keyPath b
    · have hbne : keyPath b ≠ [] := by
        have hb := hne b (by simp)
        simp only [keyPath, ne_eq, List.map_eq_nil_iff]
        exact hb
      have hlast : lastMsgAt (keyPath a) (is ++ [b]) = some b.message := by
        unfold lastMsgAt
        rw [List.filter_append]
        have hfb : List.filter (fun x => decide (keyPath x = keyPath a)) [b] = [b] := by
          simp [hab.symm]
        rw [hfb, List.map_append]
        simp
      rw [hglue, hab, getF_setPath_self (keyPath b) hbne (buildFields is) false b.message,
        ← hab, hlast]
      rfl
    · have ha' : a ∈ is := by
        rcases List.mem_append.mp ha with h | h
        · exact h
        · simp only [List.mem_singleton] at h
          subst h
          exact absurd rfl hab
      have hdivba : diverge (keyPath b) (keyPath a) = true :=
        hdiv b (by simp) a ha (Ne.symm hab)
      have hlast : lastMsgAt (keyPath a) (is ++ [b]) = lastMsgAt (keyPath a) is := by
        unfold lastMsgAt
        rw [List.filter_append]
        have hfb : List.filter (fun x => decide (keyPath x = keyPath a)) [b] = [] := by
          simp [Ne.symm hab]
        rw [hfb, List.append_nil]
      rw [hglue, getF_setPath_diverge (keyPath b) (keyPath a) hdivba (buildFields is) false
        b.message, hlast]
      exact ih (fun x hx => hne x (List.mem_append_left _ hx))
        (fun x hx y hy => hdiv x (List.mem_append_left _ hx) y (List.mem_append_left _ hy))
        a ha'

/-- Witness for C3: three issues, two of them colliding at path `title`;
the lookup returns the later message. -/
theorem errorMapper_nested_overwrite_witness :
    jsGet (buildTree
        [⟨[.key "title"], "first", .requiredField⟩,
         ⟨[.key "questions", .idx 0, .key "name"], "Name required", .requiredField⟩,
         ⟨[.key "title"], "Title required", .requiredField⟩])
      [.key "title"]
      = (lastMsgAt ["title"]
          [⟨[.key "title"], "first", .requiredField⟩,
           ⟨[.key "questions", .idx 0, .key "name"], "Name required", .requiredField⟩,
           ⟨[.key "title"], "Title required", .requiredField⟩]).map Val.str :=
  errorMapper_nested_overwrite
    [⟨[.key "title"], "first", .requiredField⟩,
     ⟨[.key "questions", .idx 0, .key "name"], "Name required", .requiredField⟩,
     ⟨[.key "title"], "Title required", .requiredField⟩]
    (by decide) (by decide)
    ⟨[.key "title"], "Title required", .requiredField⟩ (by decide)

/-- C6 (code bug): for the server-reported tree of a rejected submission,
the messages are stored at exactly the fields' paths, but the component's
lookups append `.message` to the path — the tree's leaves are plain
strings, so the question-name error renders nothing at all and the title
error renders an empty `div` instead of the stored message. -/
theorem serverErrors_not_rendered :
    jsGet (buildTree (formValidate rejectedPayload).1)
        [.key "questions", .idx 0, .key "name"] = some (.str "Name required") ∧
    renderedQuestionNameError (buildTree (formValidate rejectedPayload).1) 0 = none ∧
    jsGet (buildTree (formValidate rejectedPayload).1) [.key "title"]
        = some (.str "Title required") ∧
    renderedTitleError (buildTree (formValidate rejectedPayload).1) = some "" :=
  ⟨rfl, rfl, rfl, rfl⟩

/-- C7: after a rejection the form resets to the submitted values whenever
the response carries them (`actionData.data`), and to the original template
otherwise; the action's actual responses never carry `data`, so every
rejection resets to the template. -/
theorem resetTarget_spec (actionData : Option ActionData) (template : Val) :
    (∀ a d, actionData = some a → a.data = some d →
      resetTarget actionData template = d) ∧
    (actionData = none → resetTarget actionData template = template) ∧
    (∀ a, actionData = some a → a.data = none →
      resetTarget actionData template = template) ∧
    (∀ body, resetTarget (actionDataOf (action body)) template = template) := by
  refine ⟨fun a d ha hd => ?_, fun h => ?_, fun a ha hd => ?_, fun body => ?_⟩
  · subst ha; simp [resetTarget, hd]
  · subst h; rfl
  · subst ha; simp [resetTarget, hd]
  · rcases action body with loc | t <;> rfl

/-- Witness for C7: a response carrying submitted values resets to them. -/
theorem resetTarget_spec_witness :
    resetTarget (some ⟨.obj false [], some (.str "echoed")⟩) loaderTemplate = .str "echoed" :=
  (resetTarget_spec (some ⟨.obj false [], some (.str "echoed")⟩) loaderTemplate).1
    _ _ rfl rfl

/-- C9: appending a question adds a blank TEXT question (with no options
list) at the end under a fresh id, and leaves every pre-existing item — its
id and its field state — unchanged. -/
theorem appendQuestion_spec (fields : List (Nat × Question)) (nextId : Nat) :
    (appendQuestion fields nextId).length = fields.length + 1 ∧
    (appendQuestion fields nextId).take fields.length = fields ∧
    (appendQuestion fields nextId).get? fields.length = some (nextId, blankQuestion) ∧
    blankQuestion = ⟨"", .TEXT, none⟩ ∧
    blankQuestion.options = none ∧ blankQuestion.qtype ≠ .RADIOLIST := by
  refine ⟨by simp [appendQuestion], ?_, ?_, rfl, rfl, by decide⟩
  · simp [appendQuestion]
  · simp [appendQuestion]

/-- C10: the loader's template has no `title` key, so validating the
untouched template yields exactly one issue — a required-field error at
path `title` — and no parsed value: an unedited submission is always
rejected. -/
theorem loaderTemplate_invalid :
    getF loaderTemplate ["title"] = none ∧
    (formValidate loaderTemplate).1 = [⟨[.key "title"], "Required", .requiredField⟩] ∧
    (formValidate loaderTemplate).2 = none := by
  refine ⟨rfl, by decide, rfl⟩

/-- C8: for every submitted object whose title is empty or absent, the
issue list contains exactly one issue at path `title`; it is a
required-field issue (message `Title required` for an empty title,
`Required` for an absent one), no matter how many issues other paths
produce. -/
theorem titleError_unique (fs : List (String × Val))
    (h : getKey fs "title" = none ∨ getKey fs "title" = some (.str "")) :
    ∃ i, ((formValidate (.obj false fs)).1.filter fun j => j.path = [.key "title"]) = [i] ∧
      i.path = [.key "title"] ∧ i.kind = .requiredField ∧
      (getKey fs "title" = none → i.message = "Required") ∧
      (getKey fs "title" = some (.str "") → i.message = "Title required") := by
  have hq : ((vQuestions (getKey fs "questions")).1.filter
      fun j => j.path = [.key "title"]) = [] := by
    rw [List.filter_eq_nil_iff]
    intro i hi
    obtain ⟨suf, hs⟩ := vQuestions_paths (getKey fs "questions") i hi
    simp [hs]
  rcases h with h | h
  · refine ⟨requiredIssue [.key "title"], ?_, rfl, rfl, fun _ => rfl, ?_⟩
    · simp [formValidate, vNonemptyString, h, List.filter_append, hq, requiredIssue]
    · intro hc; rw [h] at hc; cases hc
  · refine ⟨⟨[.key "title"], "Title required", .requiredField⟩, ?_, rfl, rfl, ?_, fun _ => rfl⟩
    · simp [formValidate, vNonemptyString, h, List.filter_append, hq]
    · intro hc; rw [h] at hc; cases hc

/-- Witness for C8: a payload with an absent title and a question whose
every field is invalid still yields exactly one `title` issue. -/
theorem titleError_unique_witness :
    ∃ i, ((formValidate (.obj false [("questions", .obj true [("0", .obj false [])])])).1.filter
        fun j => j.path = [.key "title"]) = [i] ∧
      i.path = [.key "title"] ∧ i.kind = .requiredField ∧
      (getKey [("questions", Val.obj true [("0", .obj false [])])] "title" = none →
        i.message = "Required") ∧
      (getKey [("questions", Val.obj true [("0", .obj false [])])] "title" = some (.str "") →
        i.message = "Title required") :=
  titleError_unique [("questions", .obj true [("0", .obj false [])])] (Or.inl rfl)

/-- C4 (amended): for every payload with a non-empty string title and `N`
question objects, each with an empty or absent name, a valid type and no
options entry, validation returns exactly `N` errors, the `j`-th at path
`questions[j].name`. -/
theorem nameErrors_amended (t : String) (qs : List (String × Val))
    (ht : t ≠ "")
    (hq : ∀ v ∈ qs.map Prod.snd, badNameQuestion v) :
    (formValidate (.obj false [("title", .str t), ("questions", .obj true qs)])).1.length
        = qs.length ∧
    ∀ j, j < qs.length → ∃ m,
      (formValidate (.obj false [("title", .str t), ("questions", .obj true qs)])).1.get? j
        = some ⟨[.key "questions", .idx j, .key "name"], m, .requiredField⟩ := by
  have hform : (formValidate (.obj false [("title", .str t), ("questions", .obj true qs)])).1
      = (vQuestionList 0 (qs.map Prod.snd)).1 := by
    simp [formValidate, vNonemptyString, vQuestions, getKey, ht]
  have hlist := vQuestionList_badNames (qs.map Prod.snd) hq 0
  rw [hform]
  refine ⟨by simp [hlist.1], fun j hj => ?_⟩
  obtain ⟨m, hm⟩ := hlist.2 j (by simpa using hj)
  exact ⟨m, by simpa using hm⟩

/-- Witness for C4 (amended) at a two-question payload (one empty name, one
absent name). -/
theorem nameErrors_amended_witness :
    (formValidate (.obj false
      [("title", .str "T"),
       ("questions", .obj true
         [("0", .obj false [("name", .str ""), ("type", .str "TEXT")]),
          ("1", .obj false [("type", .str "NUMBER")])])])).1.length = 2 :=
  (nameErrors_amended "T"
    [("0", .obj false [("name", .str ""), ("type", .str "TEXT")]),
     ("1", .obj false [("type", .str "NUMBER")])]
    (by decide)
    (by
      intro v hv
      simp only [List.map_cons, List.map_nil, List.mem_cons, List.not_mem_nil, or_false] at hv
      rcases hv with rfl | rfl
      · exact ⟨_, rfl, Or.inr rfl, ⟨"TEXT", rfl, rfl⟩, rfl⟩
      · exact ⟨_, rfl, Or.inl rfl, ⟨"NUMBER", rfl, rfl⟩, rfl⟩)).1

/-- Counterexample for C4: a payload whose single question has an empty
name, but whose title is also empty, yields two errors, not `N = 1`. -/
theorem nameErrors_counterexample :
    getF rejectedPayload ["questions", "0", "name"] = some (.str "") ∧
    getF rejectedPayload ["questions", "1"] = none ∧
    (formValidate rejectedPayload).1.length = 2 ∧
    ¬ (formValidate rejectedPayload).1.length = 1 := by
  refine ⟨rfl, rfl, rfl, by decide⟩

/-- C5 (amended): for every well-formed QuestionnaireForm value with at
least one question, no present-but-empty options list, and all array
indices within qs's default `arrayLimit` of 20 (at most 21 questions, at
most 21 options per question), flattening it into the form's dot-notation
key-value pairs and reconstructing it through the submission boundary's
parser and schema yields exactly the original value. -/
theorem roundtrip_amended (f : QForm) (hwf : wellFormed f = true)
    (hopt : noEmptyOptions f = true) (hne : f.questions ≠ [])
    (hlim : withinArrayLimit f = true) :
    (formValidate (qsParse (flatten f))).2 = some f := by
  simp only [withinArrayLimit, Bool.and_eq_true, decide_eq_true_eq,
    List.all_eq_true] at hlim
  rw [qsParse_flatten f hne hlim.1 (fun q hq => by
      have := hlim.2 q hq
      simpa using this),
    formValidate_encodeForm f hwf hopt]

/-- Witness for C5 (amended) at a two-question form whose RADIOLIST
question carries one option. -/
theorem roundtrip_amended_witness :
    (formValidate (qsParse (flatten ⟨"T",
        [⟨"Q", .RADIOLIST, some [⟨"A"⟩]⟩, ⟨"R", .TEXT, none⟩]⟩))).2
      = some (⟨"T", [⟨"Q", .RADIOLIST, some [⟨"A"⟩]⟩, ⟨"R", .TEXT, none⟩]⟩ : QForm) :=
  roundtrip_amended ⟨"T", [⟨"Q", .RADIOLIST, some [⟨"A"⟩]⟩, ⟨"R", .TEXT, none⟩]⟩
    (by decide) (by decide) (by decide) (by decide)

/-- Counterexample for C5, refuting the round trip at three well-formed
values: the flat encoding cannot represent an empty array, so a value with
no questions — and likewise one whose RADIOLIST question has a
present-but-empty options list — decodes with the array absent; and a value
with 22 questions exceeds qs's default `arrayLimit` of 20, so `questions`
parses as a plain object and the schema rejects it with `Expected array`. -/
theorem roundtrip_counterexample :
    (wellFormed ⟨"T", []⟩ = true ∧
      (formValidate (qsParse (flatten ⟨"T", []⟩))).2 ≠ some (⟨"T", []⟩ : QForm)) ∧
    (wellFormed ⟨"T", [⟨"Q", .RADIOLIST, some []⟩]⟩ = true ∧
      (formValidate (qsParse (flatten ⟨"T", [⟨"Q", .RADIOLIST, some []⟩]⟩))).2
        ≠ some (⟨"T", [⟨"Q", .RADIOLIST, some []⟩]⟩ : QForm)) ∧
    (wellFormed ⟨"T", List.replicate 22 ⟨"Q", .TEXT, none⟩⟩ = true ∧
      (formValidate (qsParse (flatten ⟨"T", List.replicate 22 ⟨"Q", .TEXT, none⟩⟩))).1
        = [⟨[.key "questions"], "Expected array", .invalidType⟩] ∧
      (formValidate (qsParse (flatten ⟨"T", List.replicate 22 ⟨"Q", .TEXT, none⟩⟩))).2
        ≠ some (⟨"T", List.replicate 22 ⟨"Q", .TEXT, none⟩⟩ : QForm)) := by
  exact ⟨⟨by decide, by decide⟩, ⟨by decide, by decide⟩, ⟨by decide, by decide, by decide⟩⟩

end FormJson
